import Mathlib

/-!
Verification of the USB provisioning pipeline in
bootstrap/genesis/scripts/provision-usb.py.

The Python script is shallowly embedded: pure computations (string
formatting, manifest scanning, cache-freshness predicates) become Lean
functions on the same data; effectful routines (downloads, disk
preparation, VM lifecycle) become functions from an explicit pre-state
plus an oracle describing the outcomes of the external subprocesses to
a post-state together with a trace of the effects performed.
-/

namespace ProvisionUsb

/-! ### Python string helpers

pathlib.PurePath.suffix: the file extension of the final component.
It is the substring from the last dot, provided that dot is neither the
first nor the last character of the name. -/

/-- Index of the last occurrence of a dot in a character list, if any. -/
def rfindDotIdx : List Char → Option Nat
  | [] => none
  | c :: cs =>
    match rfindDotIdx cs with
    | some i => some (i + 1)
    | none => if c = '.' then some 0 else none

/-- Embedding of pathlib suffix: Path(name).suffix. -/
def pySuffix (s : String) : String :=
  let cs := s.data
  match rfindDotIdx cs with
  | none => ""
  | some i => if 0 < i ∧ i + 1 < cs.length then String.mk (cs.drop i) else ("")

/-! ### Hex formatting

Embedding of the Python format spec 04x used in extract_vid_pid:
lowercase hexadecimal, zero-padded on the left to at least 4 digits,
never truncated. -/

/-- One lowercase hexadecimal digit for a value below 16. -/
def hexDigit (n : Nat) : Char :=
  if n < 10 then Char.ofNat (48 + n) else Char.ofNat (87 + n)

/-- Hex digits of a number, most significant first; fuel-indexed to stay
structural (fuel at least the argument always suffices). -/
def hexDigitsAux : Nat → Nat → List Char
  | _, 0 => []
  | 0, _ => []
  | fuel + 1, n + 1 =>
    hexDigitsAux fuel ((n + 1) / 16) ++ [hexDigit ((n + 1) % 16)]

/-- Hex digits of a number (empty for zero, like repeated division). -/
def natHexDigits (n : Nat) : List Char := hexDigitsAux n n

/-- Embedding of the Python format conversion with spec 04x. -/
def pyHex4 (n : Nat) : String :=
  let ds := natHexDigits n
  let ds := if ds.isEmpty then ['0'] else ds
  String.mk (List.replicate (4 - ds.length) '0' ++ ds)

/-! ### load_iso_config

The manifest is consumed as the list data.spec.images of entries, each
with a name and a destination. The loop assigns the vyos and talos
paths (last matching entry wins, mirroring repeated assignment), then
either missing name raises ValueError. -/

/-- One entry of the images manifest. -/
structure ImageEntry where
  name : String
  destination : String
deriving DecidableEq

/-- The scanning loop of load_iso_config: threads the two path
accumulators through the entry list exactly as the Python for loop. -/
def loadLoop : List ImageEntry → String → String → String × String
  | [], v, t => (v, t)
  | e :: rest, v, t =>
    if e.name == "vyos-stream" then
      loadLoop rest ("images/" ++ e.destination) t
    else if e.name == "talos-um760" then
      loadLoop rest v ("images/" ++ e.destination)
    else
      loadLoop rest v t

/-- Embedding of load_iso_config over the parsed manifest entries. An
empty accumulator is falsy in Python, triggering the ValueError. -/
def loadIsoConfig (images : List ImageEntry) : Except String (String × String) :=
  let r := loadLoop images ("") ("")
  if r.1 == "" then
    Except.error ("Could not find vyos-stream image in manifest")
  else if r.2 == "" then
    Except.error ("Could not find talos-um760 image in manifest")
  else
    Except.ok r

/-! ### extract_vid_pid

The ioreg output is consumed as a list of device blocks; each block may
expose the product string under either of two keys, and may carry the
decimal idVendor and idProduct fields (the first regex match in the
block). The loop returns the token for the first block whose product
string equals the diskutil device name and which carries both ids; a
name-matching block lacking either id is skipped. -/

/-- One block of the ioreg USB topology snapshot. -/
structure USBBlock where
  usbProductName : Option String
  kUSBProductString : Option String
  idVendor : Option Nat
  idProduct : Option Nat
deriving DecidableEq

/-- The block-contains-device-name test of extract_vid_pid. -/
def blockNameMatch (deviceName : String) (b : USBBlock) : Bool :=
  b.usbProductName == some deviceName || b.kUSBProductString == some deviceName

/-- A block that both matches the name and carries both numeric ids. -/
def blockFullMatch (deviceName : String) (b : USBBlock) : Bool :=
  blockNameMatch deviceName b && b.idVendor.isSome && b.idProduct.isSome

/-- Embedding of the block loop of USBDeviceManager.extract_vid_pid. -/
def extractVidPid (deviceName : String) : List USBBlock → Option String
  | [] => none
  | b :: rest =>
    if blockNameMatch deviceName b then
      match b.idVendor, b.idProduct with
      | some v, some p => some (pyHex4 v ++ ":" ++ pyHex4 p)
      | _, _ => extractVidPid deviceName rest
    else
      extractVidPid deviceName rest

/-! ### DownloadManager

The destination file is modelled as absent or present with a byte
count; the network outcome is an oracle. Each download returns the
reported boolean, the final destination state, and the trace of
transfer actions performed. -/

/-- e2 storage credentials (the four decrypted string fields). -/
structure E2Credentials where
  accessKey : String
  secretKey : String
  endpoint : String
  bucket : String
deriving DecidableEq

/-- State of the destination path. -/
inductive FileState
  | absent
  | present (bytes : Nat)
deriving DecidableEq

/-- Transfer actions a download can perform. -/
inductive DlEv
  | httpGet
  | s3Head
  | s3Get
deriving DecidableEq

/-- Result of a download call. -/
structure DlResult where
  ok : Bool
  dest : FileState
  events : List DlEv
deriving DecidableEq

/-- Outcome of the HTTP stream: full success with the content length,
or a transport error after writing some bytes (none when the error
precedes opening the destination). -/
inductive HttpOutcome
  | success (total : Nat)
  | transportErr (written : Option Nat)
deriving DecidableEq

/-- The unlink-if-exists cleanup in the except handlers. -/
def unlinkIfExists : FileState → FileState
  | FileState.present _ => FileState.absent
  | FileState.absent => FileState.absent

/-- Embedding of DownloadManager.download_http. -/
def downloadHttp (dest0 : FileState) (out : HttpOutcome) : DlResult :=
  match dest0 with
  | FileState.present b => ⟨true, FileState.present b, []⟩
  | FileState.absent =>
    match out with
    | HttpOutcome.success total => ⟨true, FileState.present total, [DlEv.httpGet]⟩
    | HttpOutcome.transportErr written =>
      let afterWrite := match written with
        | some k => FileState.present k
        | none => FileState.absent
      ⟨false, unlinkIfExists afterWrite, [DlEv.httpGet]⟩

/-- Outcome of the object-storage transfer: success with the size
obtained by the head probe, a head-probe failure, or a transfer failure
after writing some bytes. -/
inductive S3Outcome
  | success (total : Nat)
  | headErr
  | transferErr (written : Option Nat)
deriving DecidableEq

/-- Embedding of DownloadManager.download_s3. -/
def downloadS3 (creds : Option E2Credentials) (dest0 : FileState)
    (out : S3Outcome) : DlResult :=
  match dest0 with
  | FileState.present b => ⟨true, FileState.present b, []⟩
  | FileState.absent =>
    match creds with
    | none => ⟨false, FileState.absent, []⟩
    | some _ =>
      match out with
      | S3Outcome.success total =>
        ⟨true, FileState.present total, [DlEv.s3Head, DlEv.s3Get]⟩
      | S3Outcome.headErr =>
        ⟨false, unlinkIfExists FileState.absent, [DlEv.s3Head]⟩
      | S3Outcome.transferErr written =>
        let afterWrite := match written with
          | some k => FileState.present k
          | none => FileState.absent
        ⟨false, unlinkIfExists afterWrite, [DlEv.s3Head, DlEv.s3Get]⟩

/-! ### USBDeviceManager.wait_for_partition

for each of timeout iterations: probe diskutil info; on exit code zero
return True, otherwise sleep one second and retry; after the loop
return False. The probe is an oracle indexed by the probe number; the
result carries the number of probes issued. -/

/-- The countdown loop of wait_for_partition: i probes already issued,
second argument is the number of loop iterations left. -/
def waitPartGo (probe : Nat → Bool) (i : Nat) : Nat → Bool × Nat
  | 0 => (false, i)
  | k + 1 =>
    if probe i then (true, i + 1) else waitPartGo probe (i + 1) k

/-- Embedding of USBDeviceManager.wait_for_partition. -/
def waitForPartition (probe : Nat → Bool) (timeout : Nat) : Bool × Nat :=
  waitPartGo probe 0 timeout

/-! ### VMwareManager.wait_for_ventoy_install

while elapsed < timeout: if the session is no longer listed as running
return True; otherwise sleep five seconds; after the loop return
False. Elapsed time advances by 5 per iteration; the poll is an oracle
of the elapsed time. The result carries the elapsed time at return. -/

/-- The polling loop of wait_for_ventoy_install, with the current
elapsed time made explicit. -/
def ventoyGo (poll : Nat → Bool) (timeout now : Nat) : Bool × Nat :=
  if h : now < timeout then
    if poll now = false then (true, now)
    else ventoyGo poll timeout (now + 5)
  else (false, now)
termination_by timeout - now
decreasing_by omega

/-- Embedding of VMwareManager.wait_for_ventoy_install. -/
def waitForVentoyInstall (poll : Nat → Bool) (timeout : Nat) : Bool × Nat :=
  ventoyGo poll timeout 0

/-! ### VMwareManager: VMDK fingerprint cache and prepare_disk

The state tracked is whether a file sits at the converted path
(vmdk_path), the state of the fingerprint record next to it
(vmdk_path.name + .meta.json), and the stat values of the source
image. External tools are an oracle; the trace records unlinks, tool
invocations and the fingerprint write. -/

/-- The fingerprint record file: absent, present but unparseable (the
OSError / JSONDecodeError branch), or a parsed record. A parsed object
missing one of the four keys compares unequal on that key and so
behaves like a mismatching record. -/
inductive MetaFile
  | absent
  | unreadable
  | record (name : String) (size : Nat) (mtime : Nat) (fmt : String)
deriving DecidableEq

/-- The stat values of the source image the fingerprint is compared
against: file name, st_size, st_mtime_ns. -/
structure SrcStat where
  name : String
  size : Nat
  mtime : Nat
deriving DecidableEq

/-- Embedding of VMwareManager._vmdk_is_fresh. -/
def vmdkIsFresh (vmdkExists : Bool) (meta : MetaFile) (src : SrcStat)
    (fmt : String) : Bool :=
  vmdkExists &&
    match meta with
    | MetaFile.record n s m f =>
      n == src.name && s == src.size && m == src.mtime && f == fmt
    | _ => false

/-- The record _write_vmdk_metadata persists for the current source. -/
def freshRecord (src : SrcStat) (fmt : String) : MetaFile :=
  MetaFile.record src.name src.size src.mtime fmt

/-- Effects prepare_disk can perform. -/
inductive Ev
  | unlinkVmdk
  | unlinkMeta
  | qemuConvert
  | ovftoolRun
  | tarExtract
  | metaWrite
deriving DecidableEq

/-- The conversion-subprocess events among the effects. -/
def isConvEv : Ev → Bool
  | Ev.qemuConvert => true
  | Ev.ovftoolRun => true
  | Ev.tarExtract => true
  | _ => false

/-- Oracle for the external tools prepare_disk drives. ovftoolVmdkFound
abstracts: the import run left at least one .vmdk in the VM directory,
so the newest one is renamed onto vmdk_path and the path exists. The
leftover fields describe whether a failed tool run left a file at
vmdk_path. tarMembers lists the archive member names in order. -/
structure DiskOracle where
  qemuAvailable : Bool
  qemuOk : Bool
  qemuLeftover : Bool
  ovftoolAvail : Bool
  ovftoolOk : Bool
  ovftoolVmdkFound : Bool
  ovftoolLeftover : Bool
  tarMembers : List String
deriving DecidableEq

deriving instance DecidableEq for Except

/-- Result of prepare_disk: the returned value or the raised error, the
final converted-path and fingerprint states, and the effect trace. -/
structure PrepResult where
  res : Except String Unit
  vmdk : Bool
  meta : MetaFile
  events : List Ev
deriving DecidableEq

/-- The conversion section of prepare_disk, entered after the freshness
check failed and any stale converted file was removed (so no file sits
at vmdk_path on entry). -/
def convertPhase (meta1 : MetaFile) (src : SrcStat) (fmt : String)
    (o : DiskOracle) : PrepResult :=
  if fmt == "qcow2" then
    if o.qemuAvailable = false then
      ⟨Except.error ("qemu-img not found"), false, meta1, []⟩
    else if o.qemuOk = false then
      ⟨Except.error ("Failed to convert QCOW2 to VMDK"), o.qemuLeftover,
        meta1, [Ev.qemuConvert]⟩
    else
      ⟨Except.ok (), true, freshRecord src fmt,
        [Ev.qemuConvert, Ev.metaWrite]⟩
  else
    let ovftoolEvents : List Ev := if o.ovftoolAvail then [Ev.ovftoolRun] else []
    if o.ovftoolAvail && o.ovftoolOk && o.ovftoolVmdkFound then
      ⟨Except.ok (), true, freshRecord src fmt,
        [Ev.ovftoolRun, Ev.metaWrite]⟩
    else
      match o.tarMembers.find? (fun m => String.endsWith m (".vmdk")) with
      | some _ =>
        ⟨Except.ok (), true, freshRecord src fmt,
          ovftoolEvents ++ [Ev.tarExtract, Ev.metaWrite]⟩
      | none =>
        ⟨Except.error ("Could not extract VMDK from OVA"), o.ovftoolLeftover,
          meta1, ovftoolEvents⟩

/-- Embedding of VMwareManager.prepare_disk. -/
def prepareDisk (vmdk0 : Bool) (meta0 : MetaFile) (src : SrcStat)
    (fmt : String) (o : DiskOracle) : PrepResult :=
  if vmdkIsFresh vmdk0 meta0 src fmt then
    ⟨Except.ok (), vmdk0, meta0, []⟩
  else
    let staleEvents : List Ev :=
      if vmdk0 then [Ev.unlinkVmdk, Ev.unlinkMeta] else []
    let meta1 := if vmdk0 then MetaFile.absent else meta0
    let r := convertPhase meta1 src fmt o
    ⟨r.res, r.vmdk, r.meta, staleEvents ++ r.events⟩

/-! ### VMwareManager.cleanup and the install stage of main

cleanup: soft-stop the session when vmrun still lists it, then, when
the VM directory exists, delete every entry except files with the
.vmdk suffix or names ending in .vmdk.meta.json (directories are
removed by rmtree). The install stage of main wraps everything from
the Ubuntu image download to the completion wait in try/finally with
cleanup in the finally block, so cleanup runs on success, on the
SystemExit raised for a start failure or a timeout, and on any
exception raised by the stages. -/

/-- One top-level entry of the session directory. -/
structure FsEntry where
  name : String
  isDir : Bool
deriving DecidableEq

/-- The keep test of the cleanup loop. -/
def keepEntry (e : FsEntry) : Bool :=
  !e.isDir &&
    (pySuffix e.name == ".vmdk" ||
      String.endsWith e.name (".vmdk.meta.json"))

/-- Embedding of VMwareManager.cleanup (including stop_vm): first
component is whether the soft-stop was issued, second the directory
contents afterwards (none when the directory does not exist). -/
def vmCleanup (running : Bool) (dir : Option (List FsEntry)) :
    Bool × Option (List FsEntry) :=
  (running,
    match dir with
    | none => none
    | some es => some (es.filter keepEntry))

/-- Exit paths of the Ventoy install stage of main. -/
inductive StageOutcome
  | success
  | downloadFailed
  | prepareDiskRaised (msg : String)
  | cloudInitRaised
  | vmxRaised
  | startFailed
  | waitTimedOut
deriving DecidableEq

/-- The try-block body of the install stage, as its exit value. -/
def stageBody : StageOutcome → Except String Unit
  | StageOutcome.success => Except.ok ()
  | StageOutcome.downloadFailed => Except.error ("SystemExit 1: Ubuntu image")
  | StageOutcome.prepareDiskRaised msg => Except.error msg
  | StageOutcome.cloudInitRaised => Except.error ("Failed to create cloud-init ISO")
  | StageOutcome.vmxRaised => Except.error ("VMX template not found")
  | StageOutcome.startFailed => Except.error ("SystemExit 1: start failed")
  | StageOutcome.waitTimedOut => Except.error ("SystemExit 1: install timeout")

/-- Embedding of the install stage with its try/finally: whatever the
exit path of the body, cleanup executes before the stage is left. -/
def ventoyInstallStage (o : StageOutcome) (running : Bool)
    (dir : Option (List FsEntry)) :
    Except String Unit × Bool × Option (List FsEntry) :=
  let body := stageBody o
  let c := vmCleanup running dir
  (body, c.1, c.2)

/-! ## Theorems -/

/-- C3: for every fetch (HTTP or object-storage) whose destination
already exists, the fetch is a no-op reporting success: the destination
is untouched, no transfer action is performed and nothing is validated;
hence a second fetch with the destination still populated reports
success again. -/
theorem fetch_cache_hit_idempotent :
    ∀ (b : Nat) (o1 o2 : HttpOutcome) (creds : Option E2Credentials)
      (s1 s2 : S3Outcome),
      downloadHttp (FileState.present b) o1 =
        ⟨true, FileState.present b, []⟩ ∧
      (downloadHttp (downloadHttp (FileState.present b) o1).dest o2).ok
        = true ∧
      downloadS3 creds (FileState.present b) s1 =
        ⟨true, FileState.present b, []⟩ ∧
      (downloadS3 creds (downloadS3 creds (FileState.present b) s1).dest
        s2).ok = true := by
  intro b o1 o2 creds s1 s2
  exact ⟨rfl, rfl, rfl, rfl⟩

/-- C4: a fetch starting with the destination absent leaves the
destination fully present with the transferred content on success, and
absent on any transport failure (head-probe or stream error, whatever
was already written): the except handlers unlink the partial file
before reporting failure. -/
theorem fetch_partial_cleanup :
    ∀ (total : Nat) (w : Option Nat) (c : E2Credentials),
      downloadHttp FileState.absent (HttpOutcome.success total) =
        ⟨true, FileState.present total, [DlEv.httpGet]⟩ ∧
      downloadHttp FileState.absent (HttpOutcome.transportErr w) =
        ⟨false, FileState.absent, [DlEv.httpGet]⟩ ∧
      downloadS3 (some c) FileState.absent (S3Outcome.success total) =
        ⟨true, FileState.present total, [DlEv.s3Head, DlEv.s3Get]⟩ ∧
      downloadS3 (some c) FileState.absent S3Outcome.headErr =
        ⟨false, FileState.absent, [DlEv.s3Head]⟩ ∧
      downloadS3 (some c) FileState.absent (S3Outcome.transferErr w) =
        ⟨false, FileState.absent, [DlEv.s3Head, DlEv.s3Get]⟩ := by
  intro total w c
  refine ⟨rfl, ?_, rfl, rfl, ?_⟩ <;> cases w <;> rfl

/-- C10: an object-storage fetch with no credentials configured still
reports success when the destination already exists (the cache check
precedes the credentials check), and with the destination absent it
reports failure with no transfer action, the destination remaining
absent. -/
theorem s3_fetch_missing_credentials :
    ∀ (b : Nat) (o1 o2 : S3Outcome),
      downloadS3 none (FileState.present b) o1 =
        ⟨true, FileState.present b, []⟩ ∧
      downloadS3 none FileState.absent o2 =
        ⟨false, FileState.absent, []⟩ := by
  intro b o1 o2
  exact ⟨rfl, rfl⟩

/-- C2: on every exit path of the install stage (success, start
failure, completion timeout, or an exception from any inner stage) the
cleanup executes: it issues the soft stop exactly when the session is
still listed as running, and the session directory afterwards holds
exactly the non-directory entries whose Python suffix is .vmdk or
whose name ends in .vmdk.meta.json; those entries remain, everything
else is deleted. -/
theorem ventoy_install_cleanup_every_exit :
    ∀ (o : StageOutcome) (running : Bool) (entries : List FsEntry)
      (e : FsEntry),
      (ventoyInstallStage o running (some entries)).2.1 = running ∧
      (ventoyInstallStage o running (some entries)).2.2 =
        some (entries.filter keepEntry) ∧
      (e ∈ entries.filter keepEntry ↔
        e ∈ entries ∧ e.isDir = false ∧
          (pySuffix e.name = ".vmdk" ∨
            String.endsWith e.name (".vmdk.meta.json") = true)) := by
  intro o running entries e
  refine ⟨rfl, rfl, ?_⟩
  simp only [List.mem_filter, keepEntry, Bool.and_eq_true, Bool.or_eq_true,
    Bool.not_eq_true', beq_iff_eq]

/-- C5: when the ioreg topology block matched by the device product
name carries idVendor 30001 (hex 7531) and idProduct 1602 (hex 0642),
the derived identity token is exactly the lowercase, 4-hex-digit,
colon-separated string 7531:0642. -/
theorem extract_vid_pid_token_format :
    ∀ (deviceName : String) (blocks : List USBBlock),
      (∀ b ∈ blocks, blockFullMatch deviceName b = true →
        b.idVendor = some 30001 ∧ b.idProduct = some 1602) →
      (∃ b ∈ blocks, blockFullMatch deviceName b = true) →
      extractVidPid deviceName blocks = some ("7531:0642") := by
  intro deviceName blocks
  induction blocks with
  | nil =>
    intro _ hex
    rcases hex with ⟨b, hb, _⟩
    cases hb
  | cons b rest ih =>
    intro hall hex
    by_cases hm : blockNameMatch deviceName b = true
    · cases hv : b.idVendor with
      | some v =>
        cases hp : b.idProduct with
        | some p =>
          have hfull : blockFullMatch deviceName b = true := by
            simp [blockFullMatch, hm, hv, hp]
          obtain ⟨h1, h2⟩ := hall b (List.mem_cons_self b rest) hfull
          rw [hv] at h1
          rw [hp] at h2
          have hv2 : v = 30001 := by injection h1
          have hp2 : p = 1602 := by injection h2
          subst hv2; subst hp2
          simp only [extractVidPid, hm, if_true, hv, hp]
          decide
        | none =>
          have hstep : extractVidPid deviceName (b :: rest) =
              extractVidPid deviceName rest := by
            simp only [extractVidPid, hm, if_true, hv, hp]
          rw [hstep]
          refine ih (fun x hx h => hall x (List.mem_cons_of_mem b hx) h) ?_
          rcases hex with ⟨x, hx, hfx⟩
          rcases List.mem_cons.mp hx with hxb | hxr
          · subst hxb
            exfalso
            simp [blockFullMatch, hp] at hfx
          · exact ⟨x, hxr, hfx⟩
      | none =>
        have hstep : extractVidPid deviceName (b :: rest) =
            extractVidPid deviceName rest := by
          simp only [extractVidPid, hm, if_true, hv]
        rw [hstep]
        refine ih (fun x hx h => hall x (List.mem_cons_of_mem b hx) h) ?_
        rcases hex with ⟨x, hx, hfx⟩
        rcases List.mem_cons.mp hx with hxb | hxr
        · subst hxb
          exfalso
          simp [blockFullMatch, hv] at hfx
        · exact ⟨x, hxr, hfx⟩
    · have hstep : extractVidPid deviceName (b :: rest) =
          extractVidPid deviceName rest := by
        simp only [extractVidPid]
        rw [if_neg hm]
      rw [hstep]
      refine ih (fun x hx h => hall x (List.mem_cons_of_mem b hx) h) ?_
      rcases hex with ⟨x, hx, hfx⟩
      rcases List.mem_cons.mp hx with hxb | hxr
      · subst hxb
        exfalso
        simp [blockFullMatch, hm] at hfx
      · exact ⟨x, hxr, hfx⟩

/-- C5 witness: the theorem applied to a one-block snapshot carrying
the synthetic ids. -/
theorem extract_vid_pid_token_format_witness :
    extractVidPid ("SanDisk Ultra") [⟨some ("SanDisk Ultra"), none, some 30001, some 1602⟩] =
      some ("7531:0642") :=
  extract_vid_pid_token_format ("SanDisk Ultra") _ (by decide) (by decide)

lemma loadLoop_fst_keep : ∀ (images : List ImageEntry) (d t : String),
    (∀ e ∈ images, e.name = "vyos-stream" → e.destination = d) →
    (loadLoop images ("images/" ++ d) t).1 = "images/" ++ d := by
  intro images d
  induction images with
  | nil => intro t _; rfl
  | cons e rest ih =>
    intro t hall
    cases he : (e.name == "vyos-stream") with
    | true =>
      have hd : e.destination = d :=
        hall e (List.mem_cons_self e rest) (by simpa using he)
      simp only [loadLoop, he, if_true, hd]
      exact ih t (fun x hx h => hall x (List.mem_cons_of_mem e hx) h)
    | false =>
      cases ht : (e.name == "talos-um760") with
      | true =>
        simp only [loadLoop, he, ht, Bool.false_eq_true, if_false, if_true]
        exact ih ("images/" ++ e.destination)
          (fun x hx h => hall x (List.mem_cons_of_mem e hx) h)
      | false =>
        simp only [loadLoop, he, ht, Bool.false_eq_true, if_false]
        exact ih t (fun x hx h => hall x (List.mem_cons_of_mem e hx) h)

lemma loadLoop_fst_found : ∀ (images : List ImageEntry) (v t : String),
    (∃ e ∈ images, e.name = "vyos-stream") →
    (∀ e ∈ images, e.name = "vyos-stream" → e.destination = "vyos.iso") →
    (loadLoop images v t).1 = "images/vyos.iso" := by
  intro images
  induction images with
  | nil =>
    intro v t hex _
    rcases hex with ⟨e, he, _⟩
    cases he
  | cons e rest ih =>
    intro v t hex hall
    cases he : (e.name == "vyos-stream") with
    | true =>
      have hd : e.destination = "vyos.iso" :=
        hall e (List.mem_cons_self e rest) (by simpa using he)
      simp only [loadLoop, he, if_true, hd]
      exact loadLoop_fst_keep rest ("vyos.iso") t
        (fun x hx h => hall x (List.mem_cons_of_mem e hx) h)
    | false =>
      have hne : e.name ≠ "vyos-stream" := by simpa using he
      have hex2 : ∃ x ∈ rest, x.name = "vyos-stream" := by
        rcases hex with ⟨x, hx, hxn⟩
        rcases List.mem_cons.mp hx with hxe | hxr
        · subst hxe; exact absurd hxn hne
        · exact ⟨x, hxr, hxn⟩
      cases ht : (e.name == "talos-um760") with
      | true =>
        simp only [loadLoop, he, ht, Bool.false_eq_true, if_false, if_true]
        exact ih v ("images/" ++ e.destination) hex2
          (fun x hx h => hall x (List.mem_cons_of_mem e hx) h)
      | false =>
        simp only [loadLoop, he, ht, Bool.false_eq_true, if_false]
        exact ih v t hex2 (fun x hx h => hall x (List.mem_cons_of_mem e hx) h)

lemma loadLoop_snd_keep : ∀ (images : List ImageEntry) (d v : String),
    (∀ e ∈ images, e.name = "talos-um760" → e.destination = d) →
    (loadLoop images v ("images/" ++ d)).2 = "images/" ++ d := by
  intro images d
  induction images with
  | nil => intro v _; rfl
  | cons e rest ih =>
    intro v hall
    cases he : (e.name == "vyos-stream") with
    | true =>
      simp only [loadLoop, he, if_true]
      exact ih ("images/" ++ e.destination)
        (fun x hx h => hall x (List.mem_cons_of_mem e hx) h)
    | false =>
      cases ht : (e.name == "talos-um760") with
      | true =>
        have hd : e.destination = d :=
          hall e (List.mem_cons_self e rest) (by simpa using ht)
        simp only [loadLoop, he, ht, Bool.false_eq_true, if_false, if_true, hd]
        exact ih v (fun x hx h => hall x (List.mem_cons_of_mem e hx) h)
      | false =>
        simp only [loadLoop, he, ht, Bool.false_eq_true, if_false]
        exact ih v (fun x hx h => hall x (List.mem_cons_of_mem e hx) h)

lemma loadLoop_snd_found : ∀ (images : List ImageEntry) (v t : String),
    (∃ e ∈ images, e.name = "talos-um760") →
    (∀ e ∈ images, e.name = "talos-um760" → e.destination = "talos.iso") →
    (loadLoop images v t).2 = "images/talos.iso" := by
  intro images
  induction images with
  | nil =>
    intro v t hex _
    rcases hex with ⟨e, he, _⟩
    cases he
  | cons e rest ih =>
    intro v t hex hall
    cases he : (e.name == "vyos-stream") with
    | true =>
      have hne : e.name ≠ "talos-um760" := by
        have hv : e.name = "vyos-stream" := by simpa using he
        rw [hv]
        decide
      have hex2 : ∃ x ∈ rest, x.name = "talos-um760" := by
        rcases hex with ⟨x, hx, hxn⟩
        rcases List.mem_cons.mp hx with hxe | hxr
        · subst hxe; exact absurd hxn hne
        · exact ⟨x, hxr, hxn⟩
      simp only [loadLoop, he, if_true]
      exact ih ("images/" ++ e.destination) t hex2
        (fun x hx h => hall x (List.mem_cons_of_mem e hx) h)
    | false =>
      cases ht : (e.name == "talos-um760") with
      | true =>
        have hd : e.destination = "talos.iso" :=
          hall e (List.mem_cons_self e rest) (by simpa using ht)
        simp only [loadLoop, he, ht, Bool.false_eq_true, if_false, if_true, hd]
        exact loadLoop_snd_keep rest ("talos.iso") v
          (fun x hx h => hall x (List.mem_cons_of_mem e hx) h)
      | false =>
        have hne : e.name ≠ "talos-um760" := by simpa using ht
        have hex2 : ∃ x ∈ rest, x.name = "talos-um760" := by
          rcases hex with ⟨x, hx, hxn⟩
          rcases List.mem_cons.mp hx with hxe | hxr
          · subst hxe; exact absurd hxn hne
          · exact ⟨x, hxr, hxn⟩
        simp only [loadLoop, he, ht, Bool.false_eq_true, if_false]
        exact ih v t hex2 (fun x hx h => hall x (List.mem_cons_of_mem e hx) h)

lemma loadLoop_fst_missing : ∀ (images : List ImageEntry) (v t : String),
    (∀ e ∈ images, e.name ≠ "vyos-stream") →
    (loadLoop images v t).1 = v := by
  intro images
  induction images with
  | nil => intro v t _; rfl
  | cons e rest ih =>
    intro v t hall
    have hne : e.name ≠ "vyos-stream" := hall e (List.mem_cons_self e rest)
    have he : (e.name == "vyos-stream") = false := by simpa using hne
    cases ht : (e.name == "talos-um760") with
    | true =>
      simp only [loadLoop, he, ht, Bool.false_eq_true, if_false, if_true]
      exact ih v ("images/" ++ e.destination)
        (fun x hx => hall x (List.mem_cons_of_mem e hx))
    | false =>
      simp only [loadLoop, he, ht, Bool.false_eq_true, if_false]
      exact ih v t (fun x hx => hall x (List.mem_cons_of_mem e hx))

lemma loadLoop_snd_missing : ∀ (images : List ImageEntry) (v t : String),
    (∀ e ∈ images, e.name ≠ "talos-um760") →
    (loadLoop images v t).2 = t := by
  intro images
  induction images with
  | nil => intro v t _; rfl
  | cons e rest ih =>
    intro v t hall
    have hne : e.name ≠ "talos-um760" := hall e (List.mem_cons_self e rest)
    have ht : (e.name == "talos-um760") = false := by simpa using hne
    cases he : (e.name == "vyos-stream") with
    | true =>
      simp only [loadLoop, he, if_true]
      exact ih ("images/" ++ e.destination) t
        (fun x hx => hall x (List.mem_cons_of_mem e hx))
    | false =>
      simp only [loadLoop, he, ht, Bool.false_eq_true, if_false]
      exact ih v t (fun x hx => hall x (List.mem_cons_of_mem e hx))

/-- C6: a manifest whose vyos-stream entries all carry destination
vyos.iso (at least one present) and whose talos-um760 entries all carry
destination talos.iso (at least one present) yields exactly the pair
of images/ keys; a manifest missing either named entry yields a
descriptive error, never a partial result. -/
theorem load_iso_config_named_entries :
    (∀ images : List ImageEntry,
      (∃ e ∈ images, e.name = "vyos-stream") →
      (∀ e ∈ images, e.name = "vyos-stream" → e.destination = "vyos.iso") →
      (∃ e ∈ images, e.name = "talos-um760") →
      (∀ e ∈ images, e.name = "talos-um760" → e.destination = "talos.iso") →
      loadIsoConfig images =
        Except.ok (("images/vyos.iso", "images/talos.iso"))) ∧
    (∀ images : List ImageEntry,
      ((∀ e ∈ images, e.name ≠ "vyos-stream") ∨
        (∀ e ∈ images, e.name ≠ "talos-um760")) →
      ∃ msg, loadIsoConfig images = Except.error msg) := by
  constructor
  · intro images h1 h2 h3 h4
    have hv := loadLoop_fst_found images ("") ("") h1 h2
    have ht := loadLoop_snd_found images ("") ("") h3 h4
    have hpair : loadLoop images ("") ("") =
        ("images/vyos.iso", "images/talos.iso") := Prod.ext hv ht
    simp [loadIsoConfig, hpair]
  · intro images h
    rcases h with h | h
    · have hv := loadLoop_fst_missing images ("") ("") h
      have hres : loadIsoConfig images =
          Except.error ("Could not find vyos-stream image in manifest") := by
        simp [loadIsoConfig, hv]
      exact ⟨_, hres⟩
    · have ht := loadLoop_snd_missing images ("") ("") h
      cases hfst : ((loadLoop images ("") ("")).1 == "") with
      | true =>
        have hres : loadIsoConfig images =
            Except.error ("Could not find vyos-stream image in manifest") := by
          simp [loadIsoConfig, hfst]
        exact ⟨_, hres⟩
      | false =>
        have hres : loadIsoConfig images =
            Except.error ("Could not find talos-um760 image in manifest") := by
          simp [loadIsoConfig, hfst, ht]
        exact ⟨_, hres⟩

/-- C6 witness: the theorem applied to the two-entry manifest of the
end-to-end scenario, and to a manifest lacking the talos entry. -/
theorem load_iso_config_named_entries_witness :
    loadIsoConfig [⟨"vyos-stream", "vyos.iso"⟩, ⟨"talos-um760", "talos.iso"⟩] =
      Except.ok (("images/vyos.iso", "images/talos.iso")) ∧
    ∃ msg, loadIsoConfig [⟨"vyos-stream", "vyos.iso"⟩] = Except.error msg :=
  ⟨load_iso_config_named_entries.1 _ (by decide) (by decide) (by decide)
      (by decide),
    load_iso_config_named_entries.2 _ (Or.inr (by decide))⟩

lemma waitPartGo_spec : ∀ (k i : Nat) (probe : Nat → Bool),
    ((waitPartGo probe i k).1 = true ↔
      ∃ j, i ≤ j ∧ j < i + k ∧ probe j = true) ∧
    ((waitPartGo probe i k).1 = true →
      i < (waitPartGo probe i k).2 ∧ (waitPartGo probe i k).2 ≤ i + k ∧
      probe ((waitPartGo probe i k).2 - 1) = true ∧
      ∀ j, i ≤ j → j < (waitPartGo probe i k).2 - 1 → probe j = false) ∧
    ((waitPartGo probe i k).1 = false →
      (waitPartGo probe i k).2 = i + k ∧
      ∀ j, i ≤ j → j < i + k → probe j = false) := by
  intro k
  induction k with
  | zero =>
    intro i probe
    refine ⟨?_, ?_, ?_⟩
    · simp only [waitPartGo]
      constructor
      · intro h; cases h
      · rintro ⟨j, hj1, hj2, _⟩; omega
    · intro h; cases h
    · intro _
      exact ⟨rfl, fun j h1 h2 => by omega⟩
  | succ k ih =>
    intro i probe
    cases hp : probe i with
    | true =>
      have hres : waitPartGo probe i (k + 1) = (true, i + 1) := by
        simp [waitPartGo, hp]
      refine ⟨?_, ?_, ?_⟩
      · rw [hres]
        simp only [true_iff]
        exact ⟨i, le_refl i, by omega, hp⟩
      · intro _
        rw [hres]
        refine ⟨by omega, by omega, by simpa using hp, ?_⟩
        intro j h1 h2
        simp at h2
        omega
      · intro hfalse
        rw [hres] at hfalse
        cases hfalse
    | false =>
      have hres : waitPartGo probe i (k + 1) = waitPartGo probe (i + 1) k := by
        simp [waitPartGo, hp]
      obtain ⟨ih1, ih2, ih3⟩ := ih (i + 1) probe
      refine ⟨?_, ?_, ?_⟩
      · rw [hres, ih1]
        constructor
        · rintro ⟨j, h1, h2, h3⟩
          exact ⟨j, by omega, by omega, h3⟩
        · rintro ⟨j, h1, h2, h3⟩
          refine ⟨j, ?_, by omega, h3⟩
          rcases Nat.eq_or_lt_of_le h1 with heq | hlt
          · exfalso; rw [← heq] at h3; rw [hp] at h3; cases h3
          · omega
      · intro htrue
        rw [hres] at htrue
        obtain ⟨g1, g2, g3, g4⟩ := ih2 htrue
        rw [hres]
        refine ⟨by omega, by omega, g3, ?_⟩
        intro j h1 h2
        rcases Nat.eq_or_lt_of_le h1 with heq | hlt
        · rw [← heq]; exact hp
        · exact g4 j (by omega) h2
      · intro hfalse
        rw [hres] at hfalse
        obtain ⟨g1, g2⟩ := ih3 hfalse
        rw [hres]
        refine ⟨by omega, ?_⟩
        intro j h1 h2
        rcases Nat.eq_or_lt_of_le h1 with heq | hlt
        · rw [← heq]; exact hp
        · exact g2 j (by omega) (by omega)

/-- C9: the partition wait issues at most timeout probes (one per
second), returns true precisely when some probe within the bound
reports the partition present — stopping at the first such probe — and
returns false after exactly timeout probes otherwise; a zero timeout
returns false with no probe issued. -/
theorem wait_for_partition_bounded_poll :
    ∀ (probe : Nat → Bool) (timeout : Nat),
      ((waitForPartition probe timeout).1 = true ↔
        ∃ j, j < timeout ∧ probe j = true) ∧
      (waitForPartition probe timeout).2 ≤ timeout ∧
      ((waitForPartition probe timeout).1 = true →
        1 ≤ (waitForPartition probe timeout).2 ∧
        probe ((waitForPartition probe timeout).2 - 1) = true ∧
        ∀ j, j < (waitForPartition probe timeout).2 - 1 →
          probe j = false) ∧
      ((waitForPartition probe timeout).1 = false →
        (waitForPartition probe timeout).2 = timeout ∧
        ∀ j, j < timeout → probe j = false) ∧
      (timeout = 0 → waitForPartition probe timeout = (false, 0)) := by
  intro probe timeout
  obtain ⟨h1, h2, h3⟩ := waitPartGo_spec timeout 0 probe
  have hw : waitPartGo probe 0 timeout = waitForPartition probe timeout := rfl
  rw [hw] at h1 h2 h3
  refine ⟨?_, ?_, ?_, ?_, ?_⟩
  · rw [h1]
    constructor
    · rintro ⟨j, _, hj2, hj3⟩; exact ⟨j, by omega, hj3⟩
    · rintro ⟨j, hj1, hj2⟩; exact ⟨j, by omega, by omega, hj2⟩
  · cases hb : (waitForPartition probe timeout).1 with
    | true =>
      have := h2 hb
      omega
    | false =>
      have := h3 hb
      omega
  · intro hb
    obtain ⟨g1, g2, g3, g4⟩ := h2 hb
    exact ⟨by omega, g3, fun j hj => g4 j (by omega) hj⟩
  · intro hb
    obtain ⟨g1, g2⟩ := h3 hb
    exact ⟨by simpa using g1, fun j hj => g2 j (by omega) (by omega)⟩
  · intro h0
    subst h0
    rfl

/-- C9 witness: the theorem applied to a probe that first succeeds at
index two within a bound of five. -/
theorem wait_for_partition_bounded_poll_witness :
    (waitForPartition (fun j => j == 2) 5).1 = true :=
  (wait_for_partition_bounded_poll (fun j => j == 2) 5).1.mpr
    ⟨2, by omega, by decide⟩

lemma ventoyGo_always : ∀ (n : Nat) (poll : Nat → Bool) (timeout now : Nat),
    timeout - now ≤ n → (∀ m, poll m = true) →
    ventoyGo poll timeout now =
      (false, now + 5 * ((timeout - now + 4) / 5)) := by
  intro n
  induction n with
  | zero =>
    intro poll timeout now hn _
    have hge : ¬ now < timeout := by omega
    have h0 : timeout - now = 0 := by omega
    rw [ventoyGo]
    simp [hge, h0]
  | succ n ih =>
    intro poll timeout now hn hp
    by_cases hlt : now < timeout
    · rw [ventoyGo]
      simp only [hlt, dif_pos, hp now, Bool.true_eq_false, if_false]
      rw [ih poll timeout (now + 5) (by omega) hp]
      have harith : now + 5 + 5 * ((timeout - (now + 5) + 4) / 5) =
          now + 5 * ((timeout - now + 4) / 5) := by omega
      rw [harith]
    · have h0 : timeout - now = 0 := by omega
      rw [ventoyGo]
      simp [hlt, h0]

/-- C7 counterexample: with the running poll always reporting running
and a 2-second bound, the wait does return failure but only after 5
seconds of elapsed time — more than double the bound — because the loop
re-checks the clock only every 5-second sleep; this refutes the claim
that failure is returned at approximately the 2-second bound. -/
theorem ventoy_wait_claim_counterexample :
    (waitForVentoyInstall (fun _ => true) 2).1 = false ∧
    (waitForVentoyInstall (fun _ => true) 2).2 = 5 ∧
    ¬ (waitForVentoyInstall (fun _ => true) 2).2 ≤ 4 := by
  have h := ventoyGo_always 2 (fun _ => true) 2 0 (by omega) (fun m => rfl)
  have hw : waitForVentoyInstall (fun _ => true) 2 = (false, 5) := by
    rw [waitForVentoyInstall, h]
  rw [hw]
  refine ⟨rfl, rfl, by omega⟩

/-- C7 (amended): with the running poll always reporting running, the
install wait never hangs and never reports success: it returns failure
at the first 5-second poll boundary at or after the timeout bound, so
the elapsed time is at least the bound and less than the bound plus one
5-second poll period. -/
theorem ventoy_wait_timeout_returns_failure :
    ∀ (poll : Nat → Bool) (timeout : Nat),
      (∀ m, poll m = true) →
      waitForVentoyInstall poll timeout =
        (false, 5 * ((timeout + 4) / 5)) ∧
      timeout ≤ 5 * ((timeout + 4) / 5) ∧
      5 * ((timeout + 4) / 5) < timeout + 5 := by
  intro poll timeout hp
  refine ⟨?_, by omega, by omega⟩
  have h := ventoyGo_always timeout poll timeout 0 (by omega) hp
  rw [waitForVentoyInstall, h]
  norm_num

/-- C7 witness: the amended theorem applied to the always-running poll
with the default 300-second bound, where the poll period divides the
bound exactly. -/
theorem ventoy_wait_timeout_returns_failure_witness :
    waitForVentoyInstall (fun _ => true) 300 = (false, 300) :=
  (ventoy_wait_timeout_returns_failure (fun _ => true) 300 (fun _ => rfl)).1

lemma convertPhase_cases : ∀ (meta1 : MetaFile) (src : SrcStat)
    (fmt : String) (o : DiskOracle),
    Ev.unlinkVmdk ∉ (convertPhase meta1 src fmt o).events ∧
    Ev.unlinkMeta ∉ (convertPhase meta1 src fmt o).events ∧
    (Ev.metaWrite ∈ (convertPhase meta1 src fmt o).events ↔
      (convertPhase meta1 src fmt o).res = Except.ok ()) ∧
    ((convertPhase meta1 src fmt o).res = Except.ok () →
      (convertPhase meta1 src fmt o).vmdk = true ∧
      (convertPhase meta1 src fmt o).meta = freshRecord src fmt) ∧
    ((convertPhase meta1 src fmt o).res = Except.ok () →
      ∃ e ∈ (convertPhase meta1 src fmt o).events, isConvEv e = true) ∧
    (fmt = "qcow2" → (o.qemuAvailable = false ∨ o.qemuOk = false) →
      (convertPhase meta1 src fmt o).res ≠ Except.ok () ∧
      Ev.metaWrite ∉ (convertPhase meta1 src fmt o).events) := by
  intro meta1 src fmt o
  obtain ⟨qa, qok, qlv, oa, ook, ovf, olv, tm⟩ := o
  cases hq : (fmt == "qcow2") with
  | true =>
    have hfmt : fmt = "qcow2" := by simpa using hq
    cases qa <;> cases qok <;>
      simp [convertPhase, hq, isConvEv, hfmt]
  | false =>
    have hfmt : fmt ≠ "qcow2" := by simpa using hq
    cases oa <;> cases ook <;> cases ovf <;>
      cases hf : tm.find? (fun m => String.endsWith m (".vmdk")) <;>
        simp [convertPhase, hq, hf, isConvEv, hfmt]

lemma prepareDisk_fresh : ∀ (vmdk0 : Bool) (meta0 : MetaFile) (src : SrcStat)
    (fmt : String) (o : DiskOracle),
    vmdkIsFresh vmdk0 meta0 src fmt = true →
    prepareDisk vmdk0 meta0 src fmt o =
      ⟨Except.ok (), vmdk0, meta0, []⟩ := by
  intro vmdk0 meta0 src fmt o h
  simp [prepareDisk, h]

lemma prepareDisk_stale : ∀ (vmdk0 : Bool) (meta0 : MetaFile) (src : SrcStat)
    (fmt : String) (o : DiskOracle),
    vmdkIsFresh vmdk0 meta0 src fmt = false →
    prepareDisk vmdk0 meta0 src fmt o =
      ⟨(convertPhase (if vmdk0 then MetaFile.absent else meta0) src fmt o).res,
        (convertPhase (if vmdk0 then MetaFile.absent else meta0) src fmt o).vmdk,
        (convertPhase (if vmdk0 then MetaFile.absent else meta0) src fmt o).meta,
        (if vmdk0 then [Ev.unlinkVmdk, Ev.unlinkMeta] else []) ++
          (convertPhase (if vmdk0 then MetaFile.absent else meta0) src fmt
            o).events⟩ := by
  intro vmdk0 meta0 src fmt o h
  unfold prepareDisk
  rw [if_neg (by simp [h])]

lemma vmdkIsFresh_exists : ∀ (vmdk0 : Bool) (meta0 : MetaFile) (src : SrcStat)
    (fmt : String),
    vmdkIsFresh vmdk0 meta0 src fmt = true → vmdk0 = true := by
  intro vmdk0 meta0 src fmt h
  simp only [vmdkIsFresh, Bool.and_eq_true] at h
  exact h.1

/-- C1 counterexample: with the converted file absent but a mismatching
fingerprint record on disk (source size differs), prepare_disk goes
straight to re-conversion without ever deleting the stale fingerprint
record — the deletion branch is guarded by the converted-file
existence — refuting the claim that a field mismatch causes the
fingerprint to be deleted. -/
theorem prepare_disk_stale_fingerprint_counterexample :
    vmdkIsFresh false (MetaFile.record ("ubuntu.img") 200 5 ("qcow2"))
      ⟨"ubuntu.img", 100, 5⟩ "qcow2" = false ∧
    (prepareDisk false (MetaFile.record ("ubuntu.img") 200 5 ("qcow2"))
      ⟨"ubuntu.img", 100, 5⟩ "qcow2"
      ⟨true, true, false, false, false, false, false, []⟩).res =
        Except.ok () ∧
    Ev.unlinkMeta ∉ (prepareDisk false
      (MetaFile.record ("ubuntu.img") 200 5 ("qcow2"))
      ⟨"ubuntu.img", 100, 5⟩ "qcow2"
      ⟨true, true, false, false, false, false, false, []⟩).events ∧
    Ev.unlinkVmdk ∉ (prepareDisk false
      (MetaFile.record ("ubuntu.img") 200 5 ("qcow2"))
      ⟨"ubuntu.img", 100, 5⟩ "qcow2"
      ⟨true, true, false, false, false, false, false, []⟩).events := by
  decide

/-- C1 (amended): when the converted file and fingerprint both exist
and every fingerprint field matches the current source stat values,
prepare_disk returns the existing converted path untouched with no
subprocess invoked; otherwise, when the stale converted file exists it
and its fingerprint are deleted (a fingerprint without a converted file
is left in place, to be overwritten only by a successful
re-conversion), and any successful return performs a full conversion or
extraction. -/
theorem prepare_disk_cache_freshness :
    ∀ (vmdk0 : Bool) (meta0 : MetaFile) (src : SrcStat) (fmt : String)
      (o : DiskOracle),
      (vmdkIsFresh vmdk0 meta0 src fmt = true →
        vmdk0 = true ∧
        prepareDisk vmdk0 meta0 src fmt o =
          ⟨Except.ok (), vmdk0, meta0, []⟩) ∧
      (vmdkIsFresh vmdk0 meta0 src fmt = false →
        (vmdk0 = true →
          Ev.unlinkVmdk ∈ (prepareDisk vmdk0 meta0 src fmt o).events ∧
          Ev.unlinkMeta ∈ (prepareDisk vmdk0 meta0 src fmt o).events) ∧
        ((prepareDisk vmdk0 meta0 src fmt o).res = Except.ok () →
          ∃ e ∈ (prepareDisk vmdk0 meta0 src fmt o).events,
            isConvEv e = true)) := by
  intro vmdk0 meta0 src fmt o
  constructor
  · intro h
    exact ⟨vmdkIsFresh_exists vmdk0 meta0 src fmt h,
      prepareDisk_fresh vmdk0 meta0 src fmt o h⟩
  · intro h
    rw [prepareDisk_stale vmdk0 meta0 src fmt o h]
    cases vmdk0 with
    | false =>
      obtain ⟨-, -, -, -, hconv, -⟩ := convertPhase_cases meta0 src fmt o
      refine ⟨fun hc => absurd hc (by simp), ?_⟩
      intro hok
      simp only [if_false, Bool.false_eq_true, List.nil_append] at hok ⊢
      exact hconv hok
    | true =>
      obtain ⟨-, -, -, -, hconv, -⟩ :=
        convertPhase_cases MetaFile.absent src fmt o
      refine ⟨fun _ => ⟨by simp, by simp⟩, ?_⟩
      intro hok
      simp only [if_true, List.cons_append, List.nil_append] at hok ⊢
      obtain ⟨e, he, hce⟩ := hconv hok
      exact ⟨e, by simp [he], hce⟩

/-- C1 witness: the amended theorem applied to a fresh cache state —
converted file present and every fingerprint field matching the source
stat — returning the cached path with no effects. -/
theorem prepare_disk_cache_freshness_witness :
    vmdkIsFresh true (MetaFile.record ("ubuntu.img") 100 5 ("qcow2"))
      ⟨"ubuntu.img", 100, 5⟩ "qcow2" = true ∧
    prepareDisk true (MetaFile.record ("ubuntu.img") 100 5 ("qcow2"))
      ⟨"ubuntu.img", 100, 5⟩ "qcow2"
      ⟨true, true, false, false, false, false, false, []⟩ =
        ⟨Except.ok (), true, MetaFile.record ("ubuntu.img") 100 5 ("qcow2"),
          []⟩ :=
  ⟨by decide,
    ((prepare_disk_cache_freshness true
      (MetaFile.record ("ubuntu.img") 100 5 ("qcow2"))
      ⟨"ubuntu.img", 100, 5⟩ "qcow2"
      ⟨true, true, false, false, false, false, false, []⟩).1 (by decide)).2⟩

/-- C8: on every non-fresh invocation, the fingerprint is written if
and only if prepare_disk succeeds, and success leaves the converted
file at the expected path with the fingerprint recording the current
source stat values; on the qcow2 path, tool absence or a failed
conversion yields a fatal error with no fingerprint written. -/
theorem prepare_disk_fingerprint_iff_success :
    ∀ (vmdk0 : Bool) (meta0 : MetaFile) (src : SrcStat) (fmt : String)
      (o : DiskOracle),
      vmdkIsFresh vmdk0 meta0 src fmt = false →
      (Ev.metaWrite ∈ (prepareDisk vmdk0 meta0 src fmt o).events ↔
        (prepareDisk vmdk0 meta0 src fmt o).res = Except.ok ()) ∧
      ((prepareDisk vmdk0 meta0 src fmt o).res = Except.ok () →
        (prepareDisk vmdk0 meta0 src fmt o).vmdk = true ∧
        (prepareDisk vmdk0 meta0 src fmt o).meta = freshRecord src fmt) ∧
      (fmt = "qcow2" → (o.qemuAvailable = false ∨ o.qemuOk = false) →
        (prepareDisk vmdk0 meta0 src fmt o).res ≠ Except.ok () ∧
        Ev.metaWrite ∉ (prepareDisk vmdk0 meta0 src fmt o).events) := by
  intro vmdk0 meta0 src fmt o h
  rw [prepareDisk_stale vmdk0 meta0 src fmt o h]
  cases vmdk0 with
  | false =>
    obtain ⟨-, -, hiff, hok, -, hq⟩ := convertPhase_cases meta0 src fmt o
    simp only [if_false, Bool.false_eq_true, List.nil_append]
    exact ⟨hiff, hok, hq⟩
  | true =>
    obtain ⟨-, -, hiff, hok, -, hq⟩ :=
      convertPhase_cases MetaFile.absent src fmt o
    simp only [if_true, List.cons_append, List.nil_append]
    refine ⟨?_, hok, ?_⟩
    · rw [← hiff]
      simp
    · intro h1 h2
      obtain ⟨g1, g2⟩ := hq h1 h2
      refine ⟨g1, ?_⟩
      simpa using g2

/-- C8 witness: the theorem applied to a non-fresh state (no
fingerprint on disk) with a working conversion tool. -/
theorem prepare_disk_fingerprint_iff_success_witness :
    vmdkIsFresh false MetaFile.absent ⟨"u.img", 3, 4⟩ "qcow2" = false ∧
    (Ev.metaWrite ∈ (prepareDisk false MetaFile.absent ⟨"u.img", 3, 4⟩
        "qcow2" ⟨true, true, false, false, false, false, false, []⟩).events ↔
      (prepareDisk false MetaFile.absent ⟨"u.img", 3, 4⟩ "qcow2"
        ⟨true, true, false, false, false, false, false, []⟩).res =
          Except.ok ()) :=
  ⟨by decide,
    (prepare_disk_fingerprint_iff_success false MetaFile.absent
      ⟨"u.img", 3, 4⟩ "qcow2"
      ⟨true, true, false, false, false, false, false, []⟩ (by decide)).1⟩

end ProvisionUsb
